import Mathlib

/-!
Verification of the kalshi_bot trading core against its specification.

Each Python module relevant to the checked claims is shallowly embedded:
Python floats are modelled as exact rationals (ℚ), Python ints as ℤ,
`math.ceil` as the integer ceiling on ℚ, and Python's `int()` conversion
as truncation toward zero.  Stateful classes become explicit state records
with pure transition functions; wall-clock reads (`datetime.now()`) become
explicit time parameters.
-/

namespace KalshiArb

/-! ## utils/fees.py -/

/-- Embedding of `calculate_fee` (src/kalshi_arb/utils/fees.py).
Returns 0 outside the open unit interval, otherwise rounds
`0.07 * price * (1 - price)` up to the next cent and multiplies by the
number of contracts. -/
def calculate_fee (price : ℚ) (num_contracts : ℤ) : ℚ :=
  if ¬(0 < price ∧ price < 1) then 0
  else
    let fee_per_contract : ℚ := 7/100 * price * (1 - price)
    let fee_cents : ℤ := ⌈fee_per_contract * 100⌉
    ((fee_cents : ℚ) / 100) * (num_contracts : ℚ)

/-- Embedding of `calculate_total_fees` (src/kalshi_arb/utils/fees.py). -/
def calculate_total_fees (prices : List ℚ) (num_contracts : ℤ) : ℚ :=
  (prices.map (fun p => calculate_fee p num_contracts)).sum

theorem calculate_fee_nonneg (p : ℚ) (n : ℤ) (hn : 0 ≤ n) : 0 ≤ calculate_fee p n := by
  unfold calculate_fee
  split
  · exact le_refl 0
  · rename_i h
    push_neg at h
    obtain ⟨h0, h1⟩ := h
    have hpos : (0 : ℚ) < 7/100 * p * (1 - p) * 100 := by nlinarith
    have hceil : (0 : ℤ) ≤ ⌈(7/100 * p * (1 - p) * 100 : ℚ)⌉ :=
      Int.ceil_nonneg (le_of_lt hpos)
    have : (0 : ℚ) ≤ ((⌈(7/100 * p * (1 - p) * 100 : ℚ)⌉ : ℤ) : ℚ) / 100 := by
      positivity
    have hn' : (0 : ℚ) ≤ (n : ℚ) := by exact_mod_cast hn
    exact mul_nonneg this hn'

theorem calculate_total_fees_nonneg (prices : List ℚ) : 0 ≤ calculate_total_fees prices 1 := by
  unfold calculate_total_fees
  induction prices with
  | nil => simp
  | cons p ps ih =>
      simp only [List.map_cons, List.sum_cons]
      have := calculate_fee_nonneg p 1 (by norm_num)
      linarith

/-! ## risk/risk_manager.py -/

/-- Embedding of the `DrawdownAction` enum. -/
inductive DrawdownAction where
  | none
  | warning
  | reduce
  | stop
deriving DecidableEq, Repr

/-- Embedding of `RiskConfig` (drawdown fields; defaults from the source). -/
structure RiskConfig where
  max_drawdown_warning : ℚ := 1/10
  max_drawdown_reduce : ℚ := 2/10
  max_drawdown_stop : ℚ := 3/10

/-- Mutable state of `RiskManager` relevant to drawdown tracking. -/
structure RiskState where
  peak_value : ℚ := 0
  max_drawdown : ℚ := 0

/-- Embedding of the metrics fields produced by `update_account_value`. -/
structure RiskMetrics where
  account_value : ℚ
  peak_value : ℚ
  current_drawdown : ℚ
  max_drawdown : ℚ
  drawdown_action : DrawdownAction
deriving DecidableEq, Repr

/-- Embedding of `RiskManager._determine_drawdown_action`. -/
def determine_drawdown_action (cfg : RiskConfig) (drawdown : ℚ) : DrawdownAction :=
  if drawdown ≥ cfg.max_drawdown_stop then .stop
  else if drawdown ≥ cfg.max_drawdown_reduce then .reduce
  else if drawdown ≥ cfg.max_drawdown_warning then .warning
  else .none

/-- Embedding of `RiskManager.update_account_value`: updates the peak and the
running max drawdown and computes the action from the current drawdown. -/
def update_account_value (cfg : RiskConfig) (s : RiskState) (value : ℚ) :
    RiskState × RiskMetrics :=
  let peak := if value > s.peak_value then value else s.peak_value
  let current_drawdown := if peak > 0 then (peak - value) / peak else 0
  let maxdd := if current_drawdown > s.max_drawdown then current_drawdown else s.max_drawdown
  let action := determine_drawdown_action cfg current_drawdown
  (⟨peak, maxdd⟩, ⟨value, peak, current_drawdown, maxdd, action⟩)

/-- Feed a sequence of equity values through `update_account_value`, returning
the final state and the drawdown action of every call, in order. -/
def drawdown_actions (cfg : RiskConfig) (s : RiskState) :
    List ℚ → RiskState × List DrawdownAction
  | [] => (s, [])
  | v :: vs =>
    let step := update_account_value cfg s v
    let rest := drawdown_actions cfg step.1 vs
    (rest.1, step.2.drawdown_action :: rest.2)

end KalshiArb

open KalshiArb

theorem fee_ceil_74 : ⌈(7 : ℚ)/4⌉ = (2 : ℤ) := by
  rw [Int.ceil_eq_iff]
  norm_num

theorem fee_ceil_63_100 : ⌈(63 : ℚ)/100⌉ = (1 : ℤ) := by
  rw [Int.ceil_eq_iff]
  norm_num

/-- Claim C2: for every rational price p, `calculate_fee p 1` is 0 outside the
open interval (0,1) — in particular fee 0 = 0 and fee 1 = 0 — and equals
`max 0.01 (⌈0.07 * p * (1-p) * 100⌉ / 100)` inside it; consequently
fee 0.50 = 0.02, fee 0.10 = 0.01 and fee 0.90 = 0.01. -/
theorem C2_calculate_fee_matches_spec :
    (∀ p : ℚ, calculate_fee p 1 =
      if 0 < p ∧ p < 1 then
        max (1/100) ((⌈(7 : ℚ)/100 * p * (1 - p) * 100⌉ : ℚ) / 100)
      else 0)
    ∧ calculate_fee 0 1 = 0 ∧ calculate_fee 1 1 = 0
    ∧ calculate_fee (1/2) 1 = 2/100
    ∧ calculate_fee (1/10) 1 = 1/100
    ∧ calculate_fee (9/10) 1 = 1/100 := by
  have key : ∀ p : ℚ, calculate_fee p 1 =
      if 0 < p ∧ p < 1 then
        max (1/100) ((⌈(7 : ℚ)/100 * p * (1 - p) * 100⌉ : ℚ) / 100)
      else 0 := by
    intro p
    unfold calculate_fee
    by_cases h : 0 < p ∧ p < 1
    · rw [if_neg (not_not.mpr h), if_pos h]
      obtain ⟨h0, h1⟩ := h
      have hpos : (0 : ℚ) < 7/100 * p * (1 - p) * 100 := by nlinarith
      have hone : (1 : ℤ) ≤ ⌈(7/100 * p * (1 - p) * 100 : ℚ)⌉ :=
        Int.one_le_ceil_iff.mpr hpos
      have hone' : (1 : ℚ) ≤ ((⌈(7/100 * p * (1 - p) * 100 : ℚ)⌉ : ℤ) : ℚ) := by
        exact_mod_cast hone
      have hmax : max (1/100 : ℚ) ((⌈(7 : ℚ)/100 * p * (1 - p) * 100⌉ : ℚ) / 100)
          = (⌈(7 : ℚ)/100 * p * (1 - p) * 100⌉ : ℚ) / 100 := by
        apply max_eq_right
        linarith
      rw [hmax]
      ring
    · rw [if_pos h, if_neg h]
  refine ⟨key, ?_, ?_, ?_, ?_, ?_⟩
  · rw [key]; norm_num
  · rw [key]; norm_num
  · rw [key]
    norm_num [fee_ceil_74]
  · rw [key]
    norm_num [fee_ceil_63_100]
  · rw [key]
    norm_num [fee_ceil_63_100]

/-- Claim C1 counterexample: feeding equity 10000, 9500, 8000, 6500 drives the
drawdown action to STOP, but a further update to 9000 returns WARNING, a
less-restrictive action — the action does not remain STOP. -/
theorem C1_counterexample_stop_not_sticky :
    (drawdown_actions {} {} [10000, 9500, 8000, 6500, 9000]).2
      = [.none, .none, .reduce, .stop, .warning]
    ∧ DrawdownAction.warning ≠ DrawdownAction.stop := by
  constructor
  · norm_num [drawdown_actions, update_account_value, determine_drawdown_action]
  · decide

/-- Claim C1 amended: each call's drawdown action is determined solely by the
current drawdown (STOP exactly when the current drawdown reaches the stop
threshold; there is no latch), so the action can become less restrictive when
equity recovers: after 10000, 9500, 8000, 6500 the action is STOP, and after a
further update to 9000 it is WARNING. -/
theorem C1_amended_action_tracks_current_drawdown :
    (∀ (cfg : RiskConfig) (s : RiskState) (v : ℚ),
      ((update_account_value cfg s v).2.drawdown_action = .stop
        ↔ cfg.max_drawdown_stop ≤ (update_account_value cfg s v).2.current_drawdown))
    ∧ (drawdown_actions {} {} [10000, 9500, 8000, 6500]).2
        = [.none, .none, .reduce, .stop]
    ∧ (drawdown_actions {} {} [10000, 9500, 8000, 6500, 9000]).2
        = [.none, .none, .reduce, .stop, .warning] := by
  refine ⟨?_, ?_, ?_⟩
  · intro cfg s v
    simp only [update_account_value, determine_drawdown_action]
    split_ifs with h1 h2 h3 <;> simp_all [ge_iff_le]
  · norm_num [drawdown_actions, update_account_value, determine_drawdown_action]
  · norm_num [drawdown_actions, update_account_value, determine_drawdown_action]

namespace KalshiArb

/-! ## models/constraint.py -/

/-- Embedding of the `ConstraintType` enum. -/
inductive ConstraintType where
  | subset
  | partition
  | temporal
deriving DecidableEq, Repr

/-- Embedding of `Constraint`. -/
structure Constraint where
  id : String := ""
  constraint_type : ConstraintType
  lhs_tickers : List String
  rhs_tickers : List String
  description : String := ""
deriving DecidableEq, Repr

/-- Embedding of `Constraint.all_tickers` (`list(set(lhs + rhs))`; the Python
set is unordered, so only the underlying set of tickers is meaningful). -/
def Constraint.all_tickers (c : Constraint) : List String :=
  (c.lhs_tickers ++ c.rhs_tickers).dedup

/-- Embedding of `ProbabilityBound`. -/
structure ProbabilityBound where
  ticker : String
  lower : ℚ := 0
  upper : ℚ := 1
  source_constraint_id : String := ""
  confidence : ℚ := 1
deriving DecidableEq, Repr

/-- Embedding of `ProbabilityBound.merge`; the `ValueError` raised on a ticker
mismatch is modelled as `none`. -/
def ProbabilityBound.merge (b o : ProbabilityBound) : Option ProbabilityBound :=
  if b.ticker ≠ o.ticker then none
  else some
    { ticker := b.ticker
      lower := max b.lower o.lower
      upper := min b.upper o.upper
      source_constraint_id := b.source_constraint_id ++ "+" ++ o.source_constraint_id
      confidence := min b.confidence o.confidence }

/-- Left fold of `ProbabilityBound.merge` over a list, starting from a first
bound, propagating the mismatch failure. -/
def mergeFold (b : ProbabilityBound) : List ProbabilityBound → Option ProbabilityBound
  | [] => some b
  | x :: xs => (b.merge x).bind (fun m => mergeFold m xs)

end KalshiArb

/-- The value v is the greatest element of the list vs. -/
def IsMaxOf (v : ℚ) (vs : List ℚ) : Prop := v ∈ vs ∧ ∀ x ∈ vs, x ≤ v

/-- The value v is the least element of the list vs. -/
def IsMinOf (v : ℚ) (vs : List ℚ) : Prop := v ∈ vs ∧ ∀ x ∈ vs, v ≤ x

theorem isMaxOf_max_cons {v a b : ℚ} {l : List ℚ} :
    IsMaxOf v (max a b :: l) ↔ IsMaxOf v (a :: b :: l) := by
  constructor
  · rintro ⟨hmem, hub⟩
    have hmaxle : max a b ≤ v := hub _ (List.mem_cons_self _ _)
    have ha : a ≤ v := le_trans (le_max_left a b) hmaxle
    have hb : b ≤ v := le_trans (le_max_right a b) hmaxle
    refine ⟨?_, ?_⟩
    · rcases List.mem_cons.mp hmem with h | h
      · rcases max_choice a b with hc | hc
        · exact List.mem_cons.mpr (Or.inl (h.trans hc))
        · exact List.mem_cons_of_mem _ (List.mem_cons.mpr (Or.inl (h.trans hc)))
      · exact List.mem_cons_of_mem _ (List.mem_cons_of_mem _ h)
    · intro x hx
      rcases List.mem_cons.mp hx with rfl | hx
      · exact ha
      rcases List.mem_cons.mp hx with rfl | hx
      · exact hb
      · exact hub x (List.mem_cons_of_mem _ hx)
  · rintro ⟨hmem, hub⟩
    have ha : a ≤ v := hub _ (List.mem_cons_self _ _)
    have hb : b ≤ v := hub _ (List.mem_cons_of_mem _ (List.mem_cons_self _ _))
    refine ⟨?_, ?_⟩
    · rcases List.mem_cons.mp hmem with rfl | h
      · exact List.mem_cons.mpr (Or.inl (max_eq_left hb).symm)
      rcases List.mem_cons.mp h with rfl | h
      · exact List.mem_cons.mpr (Or.inl (max_eq_right ha).symm)
      · exact List.mem_cons_of_mem _ h
    · intro x hx
      rcases List.mem_cons.mp hx with rfl | hx
      · exact max_le ha hb
      · exact hub x (List.mem_cons_of_mem _ (List.mem_cons_of_mem _ hx))

theorem isMinOf_min_cons {v a b : ℚ} {l : List ℚ} :
    IsMinOf v (min a b :: l) ↔ IsMinOf v (a :: b :: l) := by
  constructor
  · rintro ⟨hmem, hlb⟩
    have hminle : v ≤ min a b := hlb _ (List.mem_cons_self _ _)
    have ha : v ≤ a := le_trans hminle (min_le_left a b)
    have hb : v ≤ b := le_trans hminle (min_le_right a b)
    refine ⟨?_, ?_⟩
    · rcases List.mem_cons.mp hmem with h | h
      · rcases min_choice a b with hc | hc
        · exact List.mem_cons.mpr (Or.inl (h.trans hc))
        · exact List.mem_cons_of_mem _ (List.mem_cons.mpr (Or.inl (h.trans hc)))
      · exact List.mem_cons_of_mem _ (List.mem_cons_of_mem _ h)
    · intro x hx
      rcases List.mem_cons.mp hx with rfl | hx
      · exact ha
      rcases List.mem_cons.mp hx with rfl | hx
      · exact hb
      · exact hlb x (List.mem_cons_of_mem _ hx)
  · rintro ⟨hmem, hlb⟩
    have ha : v ≤ a := hlb _ (List.mem_cons_self _ _)
    have hb : v ≤ b := hlb _ (List.mem_cons_of_mem _ (List.mem_cons_self _ _))
    refine ⟨?_, ?_⟩
    · rcases List.mem_cons.mp hmem with rfl | h
      · exact List.mem_cons.mpr (Or.inl (min_eq_left hb).symm)
      rcases List.mem_cons.mp h with rfl | h
      · exact List.mem_cons.mpr (Or.inl (min_eq_right ha).symm)
      · exact List.mem_cons_of_mem _ h
    · intro x hx
      rcases List.mem_cons.mp hx with rfl | hx
      · exact le_min ha hb
      · exact hlb x (List.mem_cons_of_mem _ (List.mem_cons_of_mem _ hx))

theorem mergeFold_extremes (t : String) :
    ∀ (l : List ProbabilityBound) (b : ProbabilityBound),
      b.ticker = t → (∀ x ∈ l, x.ticker = t) →
      ∃ m, mergeFold b l = some m ∧ m.ticker = t ∧
        IsMaxOf m.lower (b.lower :: l.map ProbabilityBound.lower) ∧
        IsMinOf m.upper (b.upper :: l.map ProbabilityBound.upper) ∧
        IsMinOf m.confidence (b.confidence :: l.map ProbabilityBound.confidence) := by
  intro l
  induction l with
  | nil =>
      intro b hb _
      refine ⟨b, rfl, hb, ⟨List.mem_cons_self _ _, ?_⟩,
        ⟨List.mem_cons_self _ _, ?_⟩, ⟨List.mem_cons_self _ _, ?_⟩⟩ <;>
      · intro x hx
        simp only [List.map_nil, List.mem_cons, List.not_mem_nil, or_false] at hx
        simp [hx]
  | cons x xs ih =>
      intro b hb hall
      have hx : x.ticker = t := hall x (List.mem_cons_self _ _)
      have hxs : ∀ y ∈ xs, y.ticker = t := fun y hy => hall y (List.mem_cons_of_mem _ hy)
      obtain ⟨m, hm, hmt, hml, hmu, hmc⟩ :=
        ih ⟨b.ticker, max b.lower x.lower, min b.upper x.upper,
            b.source_constraint_id ++ "+" ++ x.source_constraint_id,
            min b.confidence x.confidence⟩ hb hxs
      refine ⟨m, ?_, hmt, ?_, ?_, ?_⟩
      · show (b.merge x).bind (fun m => mergeFold m xs) = some m
        have hmerge : b.merge x = some
            ⟨b.ticker, max b.lower x.lower, min b.upper x.upper,
             b.source_constraint_id ++ "+" ++ x.source_constraint_id,
             min b.confidence x.confidence⟩ := by
          unfold ProbabilityBound.merge
          rw [if_neg (by rw [hb, hx]; simp)]
        rw [hmerge]
        exact hm
      · exact List.map_cons _ _ _ ▸ isMaxOf_max_cons.mp hml
      · exact List.map_cons _ _ _ ▸ isMinOf_min_cons.mp hmu
      · exact List.map_cons _ _ _ ▸ isMinOf_min_cons.mp hmc

/-- Claim C6 counterexample: folding `merge` over the two bounds for ticker T
with source ids a and b in the two possible orders yields different merged
bounds (the source_constraint_id records the fold order), so the merged bound
does depend on the order of the inputs. -/
theorem C6_counterexample_merge_order_dependent :
    mergeFold ⟨"T", 0, 1, "a", 1⟩ [⟨"T", 0, 1, "b", 1⟩]
      ≠ mergeFold ⟨"T", 0, 1, "b", 1⟩ [⟨"T", 0, 1, "a", 1⟩] := by
  simp only [mergeFold, ProbabilityBound.merge]
  decide

/-- Claim C6 amended: folding `ProbabilityBound.merge` over same-ticker bounds
is associative, and the merged bound's lower (resp. upper, confidence) is the
maximum of the inputs' lowers (resp. minimum of uppers, minimum of
confidences) — hence those fields are independent of order and grouping —
but the source_constraint_id concatenates ids in fold order, so the full
merged record is not order-independent. -/
theorem C6_amended_merge_assoc_and_extremes :
    (∀ a b c : ProbabilityBound,
      (a.merge b).bind (fun m => m.merge c) = (b.merge c).bind (fun m => a.merge m)) ∧
    (∀ (t : String) (b : ProbabilityBound) (l : List ProbabilityBound),
      b.ticker = t → (∀ x ∈ l, x.ticker = t) →
      ∃ m, mergeFold b l = some m ∧ m.ticker = t ∧
        IsMaxOf m.lower (b.lower :: l.map ProbabilityBound.lower) ∧
        IsMinOf m.upper (b.upper :: l.map ProbabilityBound.upper) ∧
        IsMinOf m.confidence (b.confidence :: l.map ProbabilityBound.confidence)) := by
  constructor
  · intro a b c
    by_cases hab : a.ticker = b.ticker
    · by_cases hbc : b.ticker = c.ticker
      · simp [ProbabilityBound.merge, hab, hbc, max_assoc, min_assoc, String.append_assoc]
      · simp [ProbabilityBound.merge, hab, hbc]
    · by_cases hbc : b.ticker = c.ticker
      · have hac : ¬a.ticker = c.ticker := fun h => hab (h.trans hbc.symm)
        simp [ProbabilityBound.merge, hab, hbc, hac]
      · simp [ProbabilityBound.merge, hab, hbc]
  · exact fun t b l hb hl => mergeFold_extremes t l b hb hl

/-- Witness for the amended claim C6 at concrete inputs. -/
theorem C6_amended_witness :
    ∃ m, mergeFold ⟨"T", 1/4, 9/10, "a", 1⟩ [⟨"T", 1/2, 1, "b", 4/5⟩] = some m ∧
      m.ticker = "T" ∧
      IsMaxOf m.lower [1/4, 1/2] ∧ IsMinOf m.upper [9/10, 1] ∧
      IsMinOf m.confidence [1, 4/5] := by
  have h := C6_amended_merge_assoc_and_extremes.2 "T"
    ⟨"T", 1/4, 9/10, "a", 1⟩ [⟨"T", 1/2, 1, "b", 4/5⟩] rfl
    (by intro x hx; simp only [List.mem_cons, List.not_mem_nil, or_false] at hx; rw [hx])
  simpa using h

namespace KalshiArb

/-! ## engine/bound_calculator.py -/

/-- The tickers of a partition constraint that have a price: the keys of the
Python dict comprehension in `calculate_partition_bounds` (deduplicated). -/
def availableTickers (tickers : List String) (prices : String → Option ℚ) : List String :=
  (tickers.filter (fun t => (prices t).isSome)).dedup

/-- The sum of the available prices (`total` in the source). -/
def partitionTotal (c : Constraint) (prices : String → Option ℚ) : ℚ :=
  ((availableTickers c.lhs_tickers prices).filterMap prices).sum

/-- Embedding of `BoundCalculator.calculate_partition_bounds`: with fewer than
two priced tickers nothing is emitted; otherwise each priced ticker gets
lower 0 and upper clamped to the unit interval. -/
def calculate_partition_bounds (c : Constraint) (prices : String → Option ℚ) :
    List ProbabilityBound :=
  let avail := availableTickers c.lhs_tickers prices
  if avail.length < 2 then []
  else
    let total := (avail.filterMap prices).sum
    c.lhs_tickers.filterMap (fun t =>
      match prices t with
      | none => none
      | some p =>
        let other_sum := total - p
        let implied_upper := max 0 (min 1 (1 - other_sum))
        some ⟨t, 0, implied_upper, c.id, 1⟩)

end KalshiArb

/-- Claim C4 counterexample: for the partition [A, B, C] with every price 3/5,
the bound emitted for A has upper 0 while the other priced tickers sum to 6/5,
so upper + sum-of-others = 6/5 > 1 and the claimed inequality fails. -/
theorem C4_counterexample_clamped_upper_violates_inequality :
    (calculate_partition_bounds ⟨"P", .partition, ["A", "B", "C"], [], ""⟩
        (fun t => if t = "A" ∨ t = "B" ∨ t = "C" then some (3/5) else none)).head?
      = some ⟨"A", 0, 0, "P", 1⟩
    ∧ partitionTotal ⟨"P", .partition, ["A", "B", "C"], [], ""⟩
        (fun t => if t = "A" ∨ t = "B" ∨ t = "C" then some (3/5) else none) - 3/5 = 6/5
    ∧ ¬((0 : ℚ) + 6/5 ≤ 1) := by
  refine ⟨?_, ?_, by norm_num⟩
  · simp +decide only [calculate_partition_bounds, availableTickers,
      List.dedup_cons_of_not_mem, List.dedup_nil, List.filter, List.filterMap,
      Option.isSome]
    norm_num [max_def, min_def]
  · simp +decide only [partitionTotal, availableTickers,
      List.dedup_cons_of_not_mem, List.dedup_nil, List.filter, List.filterMap,
      Option.isSome]
    norm_num

/-- Claim C4 amended: every bound emitted by `calculate_partition_bounds` for a
priced ticker has lower 0 and upper clamped to the unit interval as
max 0 (min 1 (1 - other_sum)); consequently upper + other_sum <= 1 holds
whenever other_sum <= 1, but not in general (the clamp at 0 breaks it when the
other priced tickers already sum to more than 1). -/
theorem C4_amended_partition_bounds (c : Constraint) (prices : String → Option ℚ)
    (b : ProbabilityBound) (hb : b ∈ calculate_partition_bounds c prices) :
    b.lower = 0 ∧ ∃ p, prices b.ticker = some p ∧
      b.upper = max 0 (min 1 (1 - (partitionTotal c prices - p)))
      ∧ (partitionTotal c prices - p ≤ 1 →
          b.upper + (partitionTotal c prices - p) ≤ 1) := by
  unfold calculate_partition_bounds at hb
  by_cases hlen : (availableTickers c.lhs_tickers prices).length < 2
  · simp [hlen] at hb
  · rw [if_neg hlen] at hb
    obtain ⟨t, _, hf⟩ := List.mem_filterMap.mp hb
    revert hf
    cases hp : prices t with
    | none => intro hf; simp at hf
    | some p =>
        intro hf
        simp only [Option.some.injEq] at hf
        subst hf
        refine ⟨rfl, p, by simpa using hp, rfl, ?_⟩
        intro hos
        set os := partitionTotal c prices - p with hosdef
        have h1 : (0 : ℚ) ≤ min 1 (1 - os) := le_min (by norm_num) (by linarith)
        have h2 : max 0 (min 1 (1 - os)) = min 1 (1 - os) := max_eq_right h1
        have h3 : min 1 (1 - os) ≤ 1 - os := min_le_right _ _
        show max 0 (min 1 (1 - os)) + os ≤ 1
        rw [h2]
        linarith

/-- Witness for the amended claim C4 at a concrete partition. -/
theorem C4_amended_partition_bounds_witness :
    (⟨"A", 0, 3/5, "Q", 1⟩ : ProbabilityBound).lower = 0 ∧ ∃ p,
      (fun t => if t = "A" then some ((3 : ℚ)/10) else if t = "B" then some (2/5) else none)
          (ProbabilityBound.ticker ⟨"A", 0, 3/5, "Q", 1⟩) = some p ∧
      ProbabilityBound.upper ⟨"A", 0, 3/5, "Q", 1⟩
        = max 0 (min 1 (1 - (partitionTotal ⟨"Q", .partition, ["A", "B"], [], ""⟩
            (fun t => if t = "A" then some ((3 : ℚ)/10) else if t = "B" then some (2/5) else none) - p)))
      ∧ (partitionTotal ⟨"Q", .partition, ["A", "B"], [], ""⟩
            (fun t => if t = "A" then some ((3 : ℚ)/10) else if t = "B" then some (2/5) else none) - p ≤ 1 →
          ProbabilityBound.upper ⟨"A", 0, 3/5, "Q", 1⟩
            + (partitionTotal ⟨"Q", .partition, ["A", "B"], [], ""⟩
                (fun t => if t = "A" then some ((3 : ℚ)/10) else if t = "B" then some (2/5) else none) - p) ≤ 1) :=
  C4_amended_partition_bounds ⟨"Q", .partition, ["A", "B"], [], ""⟩
    (fun t => if t = "A" then some ((3 : ℚ)/10) else if t = "B" then some (2/5) else none)
    ⟨"A", 0, 3/5, "Q", 1⟩
    (by
      simp +decide only [calculate_partition_bounds, availableTickers,
        List.dedup_cons_of_not_mem, List.dedup_nil, List.filter, List.filterMap,
        Option.isSome]
      norm_num [max_def, min_def])

namespace KalshiArb

/-! ## signals/rebalancing_detector.py and models/signal.py -/

/-- Embedding of `RebalancingOpportunity` (the wall-clock `created_at` field is
omitted; no checked claim mentions it). -/
structure RebalancingOpportunity where
  market_id : String
  side : String
  conditions : List String
  prices : List ℚ
  price_sum : ℚ
  deviation : ℚ
  profit_pre_fee : ℚ
  total_fees : ℚ
  profit_post_fee : ℚ
  min_liquidity : ℤ
deriving DecidableEq, Repr

/-- Embedding of `RebalancingOpportunity.is_profitable`. -/
def RebalancingOpportunity.is_profitable (o : RebalancingOpportunity) : Bool :=
  o.profit_post_fee > 1/100

/-- Embedding of `RebalancingDetector.scan_market`
(min_profit_threshold is the detector's constructor argument). -/
def scan_market (min_profit_threshold : ℚ) (market_id : String)
    (conditions : List String) (prices : List ℚ) (quantities : Option (List ℤ)) :
    Option RebalancingOpportunity :=
  if conditions.length < 2 ∨ conditions.length ≠ prices.length then none
  else
    let price_sum := prices.sum
    let deviation := |price_sum - 1|
    if deviation < 1/1000 then none
    else
      let total_fees := calculate_total_fees prices 1
      let pre_side : ℚ × String :=
        if price_sum < 1 then (1 - price_sum, "long") else (price_sum - 1, "short")
      let profit_post_fee := pre_side.1 - total_fees
      let min_liquidity : ℤ :=
        match quantities with
        | none => 0
        | some [] => 0
        | some (q :: qs) => qs.foldl min q
      let opportunity : RebalancingOpportunity :=
        ⟨market_id, pre_side.2, conditions, prices, price_sum, deviation,
         pre_side.1, total_fees, profit_post_fee, min_liquidity⟩
      if opportunity.is_profitable ∧ profit_post_fee ≥ min_profit_threshold then
        some opportunity
      else none

end KalshiArb

theorem fee_ceil_7917_10000 : ⌈(7917 : ℚ)/10000⌉ = (1 : ℤ) := by
  rw [Int.ceil_eq_iff]
  norm_num

theorem fee_ceil_28_25 : ⌈(28 : ℚ)/25⌉ = (2 : ℤ) := by
  rw [Int.ceil_eq_iff]
  norm_num

theorem fee_ceil_147_100 : ⌈(147 : ℚ)/100⌉ = (2 : ℤ) := by
  rw [Int.ceil_eq_iff]
  norm_num

/-- Claim C3 counterexample: for prices [0.10, 0.87] the deviation is
0.03 > 0.001 and the post-fee profit is exactly 0.01 >= min_profit_threshold
(= 0.01), yet scan_market returns nothing, because the code additionally
requires is_profitable, i.e. post-fee profit strictly greater than 0.01. -/
theorem C3_counterexample_post_fee_profit_at_threshold :
    scan_market (1/100) "M" ["A", "B"] [1/10, 87/100] none = none
    ∧ |([(1:ℚ)/10, 87/100].sum) - 1| > 1/1000
    ∧ (1 - ([(1:ℚ)/10, 87/100].sum)) - calculate_total_fees [1/10, 87/100] 1 ≥ 1/100 := by
  refine ⟨?_, ?_, ?_⟩
  · norm_num [scan_market, calculate_total_fees, calculate_fee,
      RebalancingOpportunity.is_profitable, fee_ceil_63_100, fee_ceil_7917_10000,
      abs_of_nonpos]
  · rw [show ([(1:ℚ)/10, 87/100].sum) - 1 = -(3/100) by norm_num, abs_neg,
      abs_of_nonneg (by norm_num)]
    norm_num
  · norm_num [calculate_total_fees, calculate_fee, fee_ceil_63_100, fee_ceil_7917_10000]

/-- Claim C3 amended: with at least two conditions and one price per
condition, scan_market returns an opportunity iff the deviation exceeds 0.001
AND the post-fee profit strictly exceeds 0.01 (the is_profitable check) AND
the post-fee profit is at least min_profit_threshold; when returned, the side
is long exactly when the price sum is below 1, with gross profit 1 - sum
(resp. short with gross profit sum - 1 otherwise). -/
theorem C3_amended_scan_market (thr : ℚ) (mid : String) (conds : List String)
    (prices : List ℚ) (qs : Option (List ℤ))
    (h2 : 2 ≤ conds.length) (hlen : conds.length = prices.length) :
    ((scan_market thr mid conds prices qs).isSome ↔
      (|prices.sum - 1| > 1/1000
        ∧ (if prices.sum < 1 then 1 - prices.sum else prices.sum - 1)
            - calculate_total_fees prices 1 > 1/100
        ∧ (if prices.sum < 1 then 1 - prices.sum else prices.sum - 1)
            - calculate_total_fees prices 1 ≥ thr))
    ∧ (∀ o, scan_market thr mid conds prices qs = some o →
        ((o.side = "long" ↔ prices.sum < 1)
          ∧ o.profit_pre_fee
              = (if prices.sum < 1 then 1 - prices.sum else prices.sum - 1)
          ∧ o.profit_post_fee = o.profit_pre_fee - calculate_total_fees prices 1)) := by
  have hguard : ¬(conds.length < 2 ∨ conds.length ≠ prices.length) := by
    push_neg
    exact ⟨h2, hlen⟩
  have hfee : 0 ≤ calculate_total_fees prices 1 := calculate_total_fees_nonneg prices
  have hgross : (if prices.sum < 1 then 1 - prices.sum else prices.sum - 1)
      = |prices.sum - 1| := by
    by_cases h : prices.sum < 1
    · rw [if_pos h, abs_of_neg (by linarith), neg_sub]
    · rw [if_neg h, abs_of_nonneg (by push_neg at h; linarith)]
  unfold scan_market
  rw [if_neg hguard]
  by_cases hdev : |prices.sum - 1| < 1/1000
  · rw [if_pos hdev]
    constructor
    · simp only [Option.isSome_none, Bool.false_eq_true, false_iff]
      rintro ⟨hgt, _⟩
      linarith
    · intro o ho
      cases ho
  · rw [if_neg hdev]
    push_neg at hdev
    have hfst : (if prices.sum < 1 then ((1:ℚ) - prices.sum, "long")
          else (prices.sum - 1, "short")).1
        = (if prices.sum < 1 then 1 - prices.sum else prices.sum - 1) := by
      by_cases h : prices.sum < 1
      · rw [if_pos h, if_pos h]
      · rw [if_neg h, if_neg h]
    by_cases hcond : (1 : ℚ)/100 <
        (if prices.sum < 1 then 1 - prices.sum else prices.sum - 1)
          - calculate_total_fees prices 1
    · by_cases hthr :
          (if prices.sum < 1 then 1 - prices.sum else prices.sum - 1)
            - calculate_total_fees prices 1 ≥ thr
      · constructor
        · rw [if_pos (by
            constructor
            · show RebalancingOpportunity.is_profitable _ = true
              simp only [RebalancingOpportunity.is_profitable, gt_iff_lt,
                decide_eq_true_eq]
              rw [hfst]
              exact hcond
            · rw [hfst]; exact hthr)]
          simp only [Option.isSome_some, true_iff]
          refine ⟨?_, hcond, hthr⟩
          calc (1:ℚ)/1000 < 1/100 := by norm_num
            _ < _ - calculate_total_fees prices 1 := hcond
            _ ≤ (if prices.sum < 1 then 1 - prices.sum else prices.sum - 1) := by linarith
            _ = |prices.sum - 1| := hgross
        · intro o ho
          rw [if_pos (by
            constructor
            · show RebalancingOpportunity.is_profitable _ = true
              simp only [RebalancingOpportunity.is_profitable, gt_iff_lt,
                decide_eq_true_eq]
              rw [hfst]
              exact hcond
            · rw [hfst]; exact hthr)] at ho
          cases ho
          refine ⟨?_, ?_, rfl⟩
          · show (if prices.sum < 1 then ((1:ℚ) - prices.sum, "long")
                else (prices.sum - 1, "short")).2 = "long" ↔ prices.sum < 1
            by_cases h : prices.sum < 1
            · simp [h]
            · simp [h]
          · show (if prices.sum < 1 then ((1:ℚ) - prices.sum, "long")
                else (prices.sum - 1, "short")).1
              = (if prices.sum < 1 then 1 - prices.sum else prices.sum - 1)
            by_cases h : prices.sum < 1
            · simp [h]
            · simp [h]
      · rw [if_neg (by
          rintro ⟨_, hc2⟩
          rw [hfst] at hc2
          exact hthr hc2)]
        constructor
        · simp only [Option.isSome_none, Bool.false_eq_true, false_iff]
          rintro ⟨_, _, hc⟩
          exact hthr hc
        · intro o ho
          cases ho
    · rw [if_neg (by
        rintro ⟨hc1, _⟩
        have : RebalancingOpportunity.is_profitable _ = true := hc1
        simp only [RebalancingOpportunity.is_profitable, gt_iff_lt,
          decide_eq_true_eq] at this
        rw [hfst] at this
        exact hcond this)]
      constructor
      · simp only [Option.isSome_none, Bool.false_eq_true, false_iff]
        rintro ⟨_, hc, _⟩
        exact hcond hc
      · intro o ho
        cases ho

/-- Witness for the amended claim C3: with prices [0.20, 0.30] the deviation
is 0.50, the post-fee profit 0.46, and an opportunity is emitted. -/
theorem C3_amended_scan_market_witness :
    (scan_market (1/100) "M" ["A", "B"] [2/10, 3/10] none).isSome := by
  refine (C3_amended_scan_market (1/100) "M" ["A", "B"] [2/10, 3/10] none
    (by norm_num) (by norm_num)).1.mpr ⟨?_, ?_, ?_⟩
  · rw [show ([(2:ℚ)/10, 3/10].sum) - 1 = -(1/2) by norm_num, abs_neg,
      abs_of_nonneg (by norm_num)]
    norm_num
  · norm_num [calculate_total_fees, calculate_fee, fee_ceil_28_25, fee_ceil_147_100]
  · norm_num [calculate_total_fees, calculate_fee, fee_ceil_28_25, fee_ceil_147_100]

namespace KalshiArb

/-! ## models/signal.py and execution/execution_engine.py -/

/-- Embedding of the `SignalDirection` enum. -/
inductive SignalDirection where
  | buy_yes
  | buy_no
deriving DecidableEq, Repr

/-- Embedding of the `SignalType` enum. -/
inductive SignalType where
  | rebalancing
  | constraint_violation
  | combinatorial
deriving DecidableEq, Repr

/-- Embedding of `DirectionalSignal` (wall-clock fields omitted; no checked
claim mentions them). -/
structure DirectionalSignal where
  ticker : String
  direction : SignalDirection
  signal_type : SignalType := .constraint_violation
  current_price : ℚ
  bound_price : ℚ
  raw_edge : ℚ
  estimated_fee : ℚ := 0
  estimated_spread : ℚ := 0
  net_edge : ℚ
  confidence : ℚ := 1
  source_constraint_id : String := ""
deriving DecidableEq, Repr

/-- Python's `int()` conversion of a float: truncation toward zero. -/
def pyInt (q : ℚ) : ℤ := if 0 ≤ q then ⌊q⌋ else ⌈q⌉

/-- Embedding of `ExecutionEngine.calculate_limit_price`: pick the raw or
spread-crossing price, convert to integer cents with `int()`, clamp to
[1, 99]. -/
def calculate_limit_price (signal : DirectionalSignal) (aggressive : Bool) : ℤ :=
  let price :=
    match signal.direction with
    | .buy_yes =>
        if aggressive then signal.current_price + signal.estimated_spread
        else signal.current_price
    | .buy_no =>
        if aggressive then signal.current_price - signal.estimated_spread
        else signal.current_price
  let price_cents := pyInt (price * 100)
  max 1 (min 99 price_cents)

/-- Embedding of the aggressiveness test in `ExecutionEngine.execute_signal`
(line `aggressive = signal.net_edge > 2 * signal.estimated_spread`). -/
def execute_signal_aggressive (signal : DirectionalSignal) : Bool :=
  signal.net_edge > 2 * signal.estimated_spread

end KalshiArb

theorem floor_99_2 : ⌊(99 : ℚ)/2⌋ = (49 : ℤ) := by
  rw [Int.floor_eq_iff]
  norm_num

theorem ceil_99_2 : ⌈(99 : ℚ)/2⌉ = (50 : ℤ) := by
  rw [Int.ceil_eq_iff]
  norm_num

/-- Claim C8 counterexample: for a buy-no signal with current price 0.505 and
spread 0.01 (net edge 1, so the aggressive branch applies), the code returns
int((0.505 - 0.01) * 100) = 49 cents, not the claimed
ceil((0.505 - 0.01) * 100) = 50 cents: Python's `int()` truncates. -/
theorem C8_counterexample_buy_no_truncates :
    calculate_limit_price
        ⟨"T", .buy_no, .constraint_violation, 101/200, 1/2, 0, 0, 1/100, 1, 1, ""⟩ true = 49
    ∧ ⌈((101 : ℚ)/200 - 1/100) * 100⌉ = 50
    ∧ (49 : ℤ) ≠ 50
    ∧ execute_signal_aggressive
        ⟨"T", .buy_no, .constraint_violation, 101/200, 1/2, 0, 0, 1/100, 1, 1, ""⟩ = true := by
  refine ⟨?_, ?_, by decide, by norm_num [execute_signal_aggressive]⟩
  · norm_num [calculate_limit_price, pyInt]
  · rw [show ((101 : ℚ)/200 - 1/100) * 100 = 99/2 by norm_num]
    exact ceil_99_2

/-- Claim C8 amended: the limit price is always clamped to [1, 99] cents; the
aggressive branch is used exactly when net_edge > 2 * spread; and in the
aggressive case the pre-clamp cent price is the truncation toward zero of
(current + spread) * 100 for buy-yes and of (current - spread) * 100 for
buy-no — equal to the floor whenever the adjusted price is nonnegative — not
the ceiling. -/
theorem C8_amended_limit_price (s : DirectionalSignal) (agg : Bool) :
    (1 ≤ calculate_limit_price s agg ∧ calculate_limit_price s agg ≤ 99)
    ∧ (execute_signal_aggressive s = true ↔ s.net_edge > 2 * s.estimated_spread)
    ∧ (s.direction = .buy_yes → 0 ≤ s.current_price + s.estimated_spread →
        calculate_limit_price s true
          = max 1 (min 99 ⌊(s.current_price + s.estimated_spread) * 100⌋))
    ∧ (s.direction = .buy_no → 0 ≤ s.current_price - s.estimated_spread →
        calculate_limit_price s true
          = max 1 (min 99 ⌊(s.current_price - s.estimated_spread) * 100⌋)) := by
  refine ⟨⟨le_max_left _ _, max_le (by norm_num) (min_le_left _ _)⟩, ?_, ?_, ?_⟩
  · simp [execute_signal_aggressive]
  · intro hdir hpos
    unfold calculate_limit_price
    rw [hdir]
    simp only [if_true]
    unfold pyInt
    rw [if_pos (mul_nonneg hpos (by norm_num : (0:ℚ) ≤ 100))]
  · intro hdir hpos
    unfold calculate_limit_price
    rw [hdir]
    simp only [if_true]
    unfold pyInt
    rw [if_pos (mul_nonneg hpos (by norm_num : (0:ℚ) ≤ 100))]

/-- Witness for the amended claim C8 at a concrete buy-no signal. -/
theorem C8_amended_limit_price_witness :
    calculate_limit_price
        ⟨"T", .buy_no, .constraint_violation, 101/200, 1/2, 0, 0, 1/100, 1, 1, ""⟩ true
      = max 1 (min 99 ⌊((101 : ℚ)/200 - 1/100) * 100⌋)
    ∧ 1 ≤ calculate_limit_price
        ⟨"T", .buy_no, .constraint_violation, 101/200, 1/2, 0, 0, 1/100, 1, 1, ""⟩ true :=
  ⟨(C8_amended_limit_price
      ⟨"T", .buy_no, .constraint_violation, 101/200, 1/2, 0, 0, 1/100, 1, 1, ""⟩ true).2.2.2
        rfl (by norm_num),
   (C8_amended_limit_price
      ⟨"T", .buy_no, .constraint_violation, 101/200, 1/2, 0, 0, 1/100, 1, 1, ""⟩ true).1.1⟩

namespace KalshiArb

/-! ## risk/position_sizer.py -/

/-- Embedding of `SizingConfig` (defaults from the source). -/
structure SizingConfig where
  kelly_fraction : ℚ := 1/4
  max_position_per_market : ℚ := 1/20
  max_cluster_allocation : ℚ := 1/10
  min_position_size : ℚ := 10
  correlation_adjustment_per_position : ℚ := 1/5

/-- Embedding of `PositionSizer.calculate_kelly`. -/
def calculate_kelly (win_probability odds : ℚ) : ℚ :=
  if win_probability ≤ 0 ∨ win_probability ≥ 1 then 0
  else if odds ≤ 0 then 0
  else max 0 (min 1 ((win_probability * odds - (1 - win_probability)) / odds))

/-- Embedding of `PositionSizer.calculate_kelly_from_edge`. -/
def calculate_kelly_from_edge (edge price : ℚ) : ℚ :=
  if edge ≤ 0 ∨ price ≤ 0 ∨ price ≥ 1 then 0
  else calculate_kelly (min (99/100) (price + edge)) ((1 - price) / price)

/-- Embedding of `PositionSizer.apply_fractional_kelly`. -/
def apply_fractional_kelly (cfg : SizingConfig) (kelly : ℚ) : ℚ :=
  kelly * cfg.kelly_fraction

/-- Embedding of `PositionSizer.adjust_for_correlation`. -/
def adjust_for_correlation (cfg : SizingConfig) (size : ℚ)
    (correlated_positions : ℤ) : ℚ :=
  if correlated_positions ≤ 0 then size
  else size * max (1/10)
    (1 - cfg.correlation_adjustment_per_position * (correlated_positions : ℚ))

/-- Embedding of `PositionSizer.adjust_for_costs`. -/
def adjust_for_costs (size spread fee : ℚ) : ℚ :=
  size * max (1/2) (1 - 2 * spread - fee)

/-- Embedding of `PositionSizer.calculate_position_size`. -/
def calculate_position_size (cfg : SizingConfig) (signal : DirectionalSignal)
    (account_balance : ℚ) (correlated_positions : ℤ) : ℚ :=
  let kelly := calculate_kelly_from_edge signal.net_edge signal.current_price
  let fractional := apply_fractional_kelly cfg kelly
  let adjusted := adjust_for_correlation cfg fractional correlated_positions
  let adjusted2 := adjust_for_costs adjusted signal.estimated_spread signal.estimated_fee
  let max_size := account_balance * cfg.max_position_per_market
  let position_size := min (adjusted2 * account_balance) max_size
  if position_size < cfg.min_position_size then 0 else position_size

end KalshiArb

theorem calculate_kelly_nonneg (wp odds : ℚ) : 0 ≤ calculate_kelly wp odds := by
  unfold calculate_kelly
  split
  · exact le_refl 0
  · split
    · exact le_refl 0
    · exact le_max_left 0 _

theorem calculate_kelly_from_edge_nonneg (e p : ℚ) :
    0 ≤ calculate_kelly_from_edge e p := by
  unfold calculate_kelly_from_edge
  split
  · exact le_refl 0
  · exact calculate_kelly_nonneg _ _

theorem apply_fractional_kelly_nonneg (cfg : SizingConfig)
    (hk : 0 ≤ cfg.kelly_fraction) {x : ℚ} (hx : 0 ≤ x) :
    0 ≤ apply_fractional_kelly cfg x :=
  mul_nonneg hx hk

theorem adjust_for_correlation_nonneg (cfg : SizingConfig) (c : ℤ) {x : ℚ}
    (hx : 0 ≤ x) : 0 ≤ adjust_for_correlation cfg x c := by
  unfold adjust_for_correlation
  split
  · exact hx
  · exact mul_nonneg hx (le_trans (by norm_num) (le_max_left _ _))

theorem adjust_for_costs_nonneg (s f : ℚ) {x : ℚ} (hx : 0 ≤ x) :
    0 ≤ adjust_for_costs x s f :=
  mul_nonneg hx (le_trans (by norm_num) (le_max_left _ _))

theorem calculate_kelly_from_edge_mono (p : ℚ) {e1 e2 : ℚ} (h : e1 ≤ e2) :
    calculate_kelly_from_edge e1 p ≤ calculate_kelly_from_edge e2 p := by
  by_cases hp : p ≤ 0 ∨ p ≥ 1
  · have h1 : calculate_kelly_from_edge e1 p = 0 := by
      unfold calculate_kelly_from_edge
      rw [if_pos (Or.inr hp)]
    have h2 : calculate_kelly_from_edge e2 p = 0 := by
      unfold calculate_kelly_from_edge
      rw [if_pos (Or.inr hp)]
    rw [h1, h2]
  · push_neg at hp
    obtain ⟨hp0, hp1⟩ := hp
    by_cases he1 : e1 ≤ 0
    · have : calculate_kelly_from_edge e1 p = 0 := by
        unfold calculate_kelly_from_edge
        rw [if_pos (Or.inl he1)]
      rw [this]
      exact calculate_kelly_from_edge_nonneg e2 p
    · push_neg at he1
      have he2 : ¬e2 ≤ 0 := not_le.mpr (lt_of_lt_of_le he1 h)
      unfold calculate_kelly_from_edge
      rw [if_neg (by push_neg; exact ⟨he1, hp0, hp1⟩),
        if_neg (by push_neg; exact ⟨lt_of_lt_of_le he1 h, hp0, hp1⟩)]
      have hodds : (0 : ℚ) < (1 - p) / p := div_pos (by linarith) hp0
      have hwp1pos : (0 : ℚ) < min (99/100) (p + e1) :=
        lt_min (by norm_num) (by linarith)
      have hwp2pos : (0 : ℚ) < min (99/100) (p + e2) :=
        lt_min (by norm_num) (by linarith)
      have hwp1lt : min (99/100 : ℚ) (p + e1) < 1 :=
        lt_of_le_of_lt (min_le_left _ _) (by norm_num)
      have hwp2lt : min (99/100 : ℚ) (p + e2) < 1 :=
        lt_of_le_of_lt (min_le_left _ _) (by norm_num)
      have hwp12 : min (99/100 : ℚ) (p + e1) ≤ min (99/100) (p + e2) :=
        min_le_min le_rfl (by linarith)
      unfold calculate_kelly
      have hc1 : ¬(min (99/100 : ℚ) (p + e1) ≤ 0 ∨ min (99/100 : ℚ) (p + e1) ≥ 1) := by
        push_neg
        exact ⟨hwp1pos, hwp1lt⟩
      have hc2 : ¬(min (99/100 : ℚ) (p + e2) ≤ 0 ∨ min (99/100 : ℚ) (p + e2) ≥ 1) := by
        push_neg
        exact ⟨hwp2pos, hwp2lt⟩
      have hoddsneg : ¬((1 - p) / p ≤ 0) := not_le.mpr hodds
      rw [if_neg hc1, if_neg hoddsneg, if_neg hc2, if_neg hoddsneg]
      apply max_le_max le_rfl
      apply min_le_min le_rfl
      rw [div_le_div_iff_of_pos_right hodds]
      nlinarith [mul_le_mul_of_nonneg_right hwp12 (le_of_lt hodds)]

theorem apply_fractional_kelly_mono (cfg : SizingConfig)
    (hk : 0 ≤ cfg.kelly_fraction) {x y : ℚ} (h : x ≤ y) :
    apply_fractional_kelly cfg x ≤ apply_fractional_kelly cfg y :=
  mul_le_mul_of_nonneg_right h hk

theorem adjust_for_correlation_mono_size (cfg : SizingConfig) (c : ℤ)
    {x y : ℚ} (h : x ≤ y) :
    adjust_for_correlation cfg x c ≤ adjust_for_correlation cfg y c := by
  unfold adjust_for_correlation
  split
  · exact h
  · exact mul_le_mul_of_nonneg_right h (le_trans (by norm_num) (le_max_left _ _))

theorem adjust_for_costs_mono_size (s f : ℚ) {x y : ℚ} (h : x ≤ y) :
    adjust_for_costs x s f ≤ adjust_for_costs y s f :=
  mul_le_mul_of_nonneg_right h (le_trans (by norm_num) (le_max_left _ _))

theorem adjust_for_correlation_antitone (cfg : SizingConfig)
    (hadj : 0 ≤ cfg.correlation_adjustment_per_position)
    {x : ℚ} (hx : 0 ≤ x) {c1 c2 : ℤ} (h : c1 ≤ c2) :
    adjust_for_correlation cfg x c2 ≤ adjust_for_correlation cfg x c1 := by
  unfold adjust_for_correlation
  rcases le_or_lt c2 0 with h2 | h2
  · rw [if_pos h2, if_pos (le_trans h h2)]
  · rw [if_neg (not_le.mpr h2)]
    rcases le_or_lt c1 0 with h1 | h1
    · rw [if_pos h1]
      have hc2 : (0 : ℚ) ≤ (c2 : ℚ) := by exact_mod_cast le_of_lt h2
      have hfac : max (1/10 : ℚ)
          (1 - cfg.correlation_adjustment_per_position * (c2 : ℚ)) ≤ 1 :=
        max_le (by norm_num) (by nlinarith [mul_nonneg hadj hc2])
      calc x * max (1/10 : ℚ)
            (1 - cfg.correlation_adjustment_per_position * (c2 : ℚ))
          ≤ x * 1 := mul_le_mul_of_nonneg_left hfac hx
        _ = x := mul_one x
    · rw [if_neg (not_le.mpr h1)]
      apply mul_le_mul_of_nonneg_left _ hx
      apply max_le_max le_rfl
      have hc12 : (c1 : ℚ) ≤ (c2 : ℚ) := by exact_mod_cast h
      nlinarith [mul_le_mul_of_nonneg_left hc12 hadj]

theorem adjust_for_costs_antitone_spread {x : ℚ} (hx : 0 ≤ x) (f : ℚ)
    {s1 s2 : ℚ} (h : s1 ≤ s2) :
    adjust_for_costs x s2 f ≤ adjust_for_costs x s1 f :=
  mul_le_mul_of_nonneg_left (max_le_max le_rfl (by linarith)) hx

theorem adjust_for_costs_antitone_fee {x : ℚ} (hx : 0 ≤ x) (s : ℚ)
    {f1 f2 : ℚ} (h : f1 ≤ f2) :
    adjust_for_costs x s f2 ≤ adjust_for_costs x s f1 :=
  mul_le_mul_of_nonneg_left (max_le_max le_rfl (by linarith)) hx

theorem sizeFinal_mono (cfg : SizingConfig) (bal : ℚ)
    (hmp : 0 ≤ cfg.max_position_per_market) (hmin : 0 ≤ cfg.min_position_size)
    {a b : ℚ} (h : a ≤ b) :
    (if min (a * bal) (bal * cfg.max_position_per_market) < cfg.min_position_size
      then 0 else min (a * bal) (bal * cfg.max_position_per_market)) ≤
    (if min (b * bal) (bal * cfg.max_position_per_market) < cfg.min_position_size
      then 0 else min (b * bal) (bal * cfg.max_position_per_market)) := by
  rcases le_or_lt 0 bal with hbal | hbal
  · have hab : a * bal ≤ b * bal := mul_le_mul_of_nonneg_right h hbal
    have hps : min (a * bal) (bal * cfg.max_position_per_market)
        ≤ min (b * bal) (bal * cfg.max_position_per_market) := min_le_min hab le_rfl
    split_ifs with h1 h2
    · exact le_refl 0
    · exact le_trans hmin (not_lt.mp h2)
    · linarith [not_lt.mp h1]
    · exact hps
  · have key : ∀ x : ℚ,
        (if min (x * bal) (bal * cfg.max_position_per_market) < cfg.min_position_size
          then 0 else min (x * bal) (bal * cfg.max_position_per_market)) = 0 := by
      intro x
      have hmx : bal * cfg.max_position_per_market ≤ 0 := by nlinarith
      have hps : min (x * bal) (bal * cfg.max_position_per_market) ≤ 0 :=
        le_trans (min_le_right _ _) hmx
      split_ifs with hc
      · rfl
      · exact le_antisymm hps (le_trans hmin (not_lt.mp hc))
    rw [key a, key b]

/-- Claim C9: holding all other inputs fixed, calculate_position_size is
monotone non-decreasing in the signal's net_edge and monotone non-increasing
in correlated_positions, in the signal's estimated_spread, and in its
estimated_fee (for any configuration with the pydantic-enforced nonnegative
fields). -/
theorem C9_position_size_monotone (cfg : SizingConfig)
    (hk : 0 ≤ cfg.kelly_fraction) (hmp : 0 ≤ cfg.max_position_per_market)
    (hmin : 0 ≤ cfg.min_position_size)
    (hadj : 0 ≤ cfg.correlation_adjustment_per_position) :
    (∀ (s : DirectionalSignal) (bal : ℚ) (c : ℤ) (e1 e2 : ℚ), e1 ≤ e2 →
        calculate_position_size cfg { s with net_edge := e1 } bal c
          ≤ calculate_position_size cfg { s with net_edge := e2 } bal c)
    ∧ (∀ (s : DirectionalSignal) (bal : ℚ) (c1 c2 : ℤ), c1 ≤ c2 →
        calculate_position_size cfg s bal c2
          ≤ calculate_position_size cfg s bal c1)
    ∧ (∀ (s : DirectionalSignal) (bal : ℚ) (c : ℤ) (sp1 sp2 : ℚ), sp1 ≤ sp2 →
        calculate_position_size cfg { s with estimated_spread := sp2 } bal c
          ≤ calculate_position_size cfg { s with estimated_spread := sp1 } bal c)
    ∧ (∀ (s : DirectionalSignal) (bal : ℚ) (c : ℤ) (f1 f2 : ℚ), f1 ≤ f2 →
        calculate_position_size cfg { s with estimated_fee := f2 } bal c
          ≤ calculate_position_size cfg { s with estimated_fee := f1 } bal c) := by
  refine ⟨?_, ?_, ?_, ?_⟩
  · intro s bal c e1 e2 he
    simp only [calculate_position_size]
    exact sizeFinal_mono cfg bal hmp hmin
      (adjust_for_costs_mono_size _ _
        (adjust_for_correlation_mono_size cfg c
          (apply_fractional_kelly_mono cfg hk
            (calculate_kelly_from_edge_mono s.current_price he))))
  · intro s bal c1 c2 hc
    simp only [calculate_position_size]
    exact sizeFinal_mono cfg bal hmp hmin
      (adjust_for_costs_mono_size _ _
        (adjust_for_correlation_antitone cfg hadj
          (apply_fractional_kelly_nonneg cfg hk
            (calculate_kelly_from_edge_nonneg _ _)) hc))
  · intro s bal c sp1 sp2 hsp
    simp only [calculate_position_size]
    exact sizeFinal_mono cfg bal hmp hmin
      (adjust_for_costs_antitone_spread
        (adjust_for_correlation_nonneg cfg c
          (apply_fractional_kelly_nonneg cfg hk
            (calculate_kelly_from_edge_nonneg _ _))) _ hsp)
  · intro s bal c f1 f2 hf
    simp only [calculate_position_size]
    exact sizeFinal_mono cfg bal hmp hmin
      (adjust_for_costs_antitone_fee
        (adjust_for_correlation_nonneg cfg c
          (apply_fractional_kelly_nonneg cfg hk
            (calculate_kelly_from_edge_nonneg _ _))) _ hf)

/-- Witness for claim C9 with the default configuration at concrete inputs. -/
theorem C9_position_size_monotone_witness :
    calculate_position_size {}
        ⟨"T", .buy_yes, .constraint_violation, 2/5, 1/2, 1/10, 1/100, 1/100, 0, 1, ""⟩
        1000 0
      ≤ calculate_position_size {}
        ⟨"T", .buy_yes, .constraint_violation, 2/5, 1/2, 1/10, 1/100, 1/100, 1/10, 1, ""⟩
        1000 0 :=
  (C9_position_size_monotone {} (by norm_num) (by norm_num) (by norm_num)
      (by norm_num)).1
    ⟨"T", .buy_yes, .constraint_violation, 2/5, 1/2, 1/10, 1/100, 1/100, 0, 1, ""⟩
    1000 0 0 (1/10) (by norm_num)

namespace KalshiArb

/-! ## models/position.py and profit_taker.py -/

/-- Embedding of the `OrderSide` enum. -/
inductive OrderSide where
  | yes
  | no
deriving DecidableEq, Repr

/-- Embedding of `Position` (wall-clock fields omitted). -/
structure Position where
  ticker : String
  side : OrderSide
  quantity : ℤ
  average_price : ℚ
  realized_pnl : ℚ := 0
  unrealized_pnl : ℚ := 0
deriving DecidableEq, Repr

/-- Embedding of `ProfitTakerConfig` (defaults from the source). -/
structure ProfitTakerConfig where
  enabled : Bool := true
  take_profit_pct : ℚ := 15/100
  stop_loss_pct : ℚ := 1/10
  trailing_stop_pct : ℚ := 1/20
  use_trailing_stop : Bool := true
  tiered_targets : List (ℚ × ℚ) := [(1/10, 1/4), (2/10, 1/2), (3/10, 3/4)]
  min_hold_seconds : ℤ := 60
  check_interval_seconds : ℚ := 5

/-- Embedding of `PositionTracker`. Times are seconds as exact rationals. -/
structure PositionTracker where
  ticker : String
  side : OrderSide
  entry_price : ℚ
  entry_time : ℚ
  quantity : ℤ
  peak_price : ℚ := 0
  peak_profit_pct : ℚ := 0
  tiers_closed : List ℕ := []
  trailing_stop_active : Bool := false
  trailing_stop_price : ℚ := 0
deriving DecidableEq, Repr

/-- Embedding of `PositionTracker.calculate_profit_pct`. -/
def calculate_profit_pct (t : PositionTracker) (current_price : ℚ) : ℚ :=
  if t.side = .yes then (current_price - t.entry_price) / t.entry_price
  else (t.entry_price - current_price) / t.entry_price

/-- Embedding of `PositionTracker.update_peak`. -/
def update_peak (t : PositionTracker) (current_price : ℚ) : PositionTracker :=
  let profit_pct := calculate_profit_pct t current_price
  if profit_pct > t.peak_profit_pct then
    { t with peak_profit_pct := profit_pct, peak_price := current_price }
  else t

/-- Embedding of `ProfitTakeAction` (the free-text reason field is omitted). -/
structure ProfitTakeAction where
  ticker : String
  action : String
  quantity : ℤ
  current_profit_pct : ℚ
  target_price : Option ℚ := none
deriving DecidableEq, Repr

/-- The tiered-targets loop at the end of `ProfitTaker._evaluate_position`:
first tier with index not yet closed, target reached and positive close
quantity wins; returns the action and the closed tier index. -/
def tiersLoop (pos_quantity : ℤ) (ticker : String) (profit_pct : ℚ)
    (closed : List ℕ) : List (ℚ × ℚ) → ℕ → Option (ProfitTakeAction × ℕ)
  | [], _ => none
  | (target_pct, close_fraction) :: rest, i =>
    if i ∈ closed then tiersLoop pos_quantity ticker profit_pct closed rest (i + 1)
    else if profit_pct ≥ target_pct then
      let close_qty := pyInt ((pos_quantity : ℚ) * close_fraction)
      if close_qty > 0 then
        some (⟨ticker, "close_partial", close_qty, profit_pct, none⟩, i)
      else tiersLoop pos_quantity ticker profit_pct closed rest (i + 1)
    else tiersLoop pos_quantity ticker profit_pct closed rest (i + 1)

/-- Embedding of `ProfitTaker._evaluate_position` for a tracked position:
takes the tracker state, the position, the current price and the wall-clock
time (the `datetime.now()` read), and returns the emitted action (if any)
together with the updated tracker. -/
def evaluate_position (cfg : ProfitTakerConfig) (tracker : PositionTracker)
    (position : Position) (current_price : ℚ) (now : ℚ) :
    Option ProfitTakeAction × PositionTracker :=
  if now - tracker.entry_time < (cfg.min_hold_seconds : ℚ) then (none, tracker)
  else
    let tracker1 := update_peak tracker current_price
    let profit_pct := calculate_profit_pct tracker1 current_price
    if profit_pct ≤ -cfg.stop_loss_pct then
      (some ⟨position.ticker, "stop_loss", position.quantity, profit_pct, none⟩,
       tracker1)
    else if tracker1.trailing_stop_active
        ∧ tracker1.peak_profit_pct - profit_pct ≥ cfg.trailing_stop_pct then
      (some ⟨position.ticker, "close_full", position.quantity, profit_pct, none⟩,
       tracker1)
    else if profit_pct ≥ cfg.take_profit_pct then
      if cfg.use_trailing_stop ∧ ¬tracker1.trailing_stop_active then
        (none, { tracker1 with trailing_stop_active := true })
      else
        (some ⟨position.ticker, "close_full", position.quantity, profit_pct, none⟩,
         tracker1)
    else
      match tiersLoop position.quantity position.ticker profit_pct
          tracker1.tiers_closed cfg.tiered_targets 0 with
      | some (act, i) =>
          (some act, { tracker1 with tiers_closed := tracker1.tiers_closed ++ [i] })
      | none => (none, tracker1)

end KalshiArb

/-- Claim C7: whenever the hold time is below min_hold_seconds,
`_evaluate_position` emits no action at all — including no STOP_LOSS — and
leaves the tracker untouched, regardless of the profit percentage; by
contrast the very same state past the hold gate does emit a stop loss. -/
theorem C7_min_hold_gates_all_actions :
    (∀ (cfg : ProfitTakerConfig) (tracker : PositionTracker) (position : Position)
        (price now : ℚ), now - tracker.entry_time < (cfg.min_hold_seconds : ℚ) →
        evaluate_position cfg tracker position price now = (none, tracker))
    ∧ (evaluate_position {} ⟨"P", .yes, 1/2, 0, 10, 1/2, 0, [], false, 0⟩
        ⟨"P", .yes, 10, 1/2, 0, 0⟩ (1/4) 100).1
        = some ⟨"P", "stop_loss", 10, -(1/2), none⟩ := by
  constructor
  · intro cfg tracker position price now hhold
    unfold evaluate_position
    rw [if_pos hhold]
  · norm_num [evaluate_position, update_peak, calculate_profit_pct]

/-- Witness for claim C7: the same pre-gate state at 30 seconds of hold time
(below the default 60) yields no action even though the loss is 50%. -/
theorem C7_min_hold_gates_all_actions_witness :
    evaluate_position {} ⟨"P", .yes, 1/2, 0, 10, 1/2, 0, [], false, 0⟩
        ⟨"P", .yes, 10, 1/2, 0, 0⟩ (1/4) 30
      = (none, ⟨"P", .yes, 1/2, 0, 10, 1/2, 0, [], false, 0⟩) :=
  C7_min_hold_gates_all_actions.1 {} ⟨"P", .yes, 1/2, 0, 10, 1/2, 0, [], false, 0⟩
    ⟨"P", .yes, 10, 1/2, 0, 0⟩ (1/4) 30 (by norm_num)

namespace KalshiArb

/-! ## engine/constraint_engine.py -/

/-- Ordered-association-list lookup: Python `dict.get`. -/
def dictGet {V : Type} : List (String × V) → String → Option V
  | [], _ => none
  | (k, v) :: rest, key => if k = key then some v else dictGet rest key

/-- Ordered-association-list update: Python `dict[key] = value` (replaces in
place, else appends, preserving insertion order). -/
def dictSet {V : Type} : List (String × V) → String → V → List (String × V)
  | [], key, v => [(key, v)]
  | (k, v0) :: rest, key, v =>
    if k = key then (key, v) :: rest else (k, v0) :: dictSet rest key v

/-- State of `ConstraintEngine`: the constraints dict and the ticker index
(ticker -> set of constraint ids, modelled as an insertion-ordered list). -/
structure ConstraintEngine where
  constraints : List (String × Constraint) := []
  ticker_index : List (String × List String) := []

/-- One iteration of the ticker-index loop in `register_constraint`:
`self._ticker_index.setdefault(ticker, set()).add(constraint_id)`. -/
def indexAdd (idx : List (String × List String)) (t cid : String) :
    List (String × List String) :=
  match dictGet idx t with
  | none => dictSet idx t [cid]
  | some s => dictSet idx t (if cid ∈ s then s else s ++ [cid])

/-- Embedding of `ConstraintEngine.register_constraint` with an explicit
constraint id: stores the constraint under its id and adds the id to the
index entry of every ticker of the new constraint (without ever scrubbing
entries of a replaced constraint). -/
def register_constraint (st : ConstraintEngine) (ctype : ConstraintType)
    (lhs rhs : List String) (description : String) (constraint_id : String) :
    ConstraintEngine × Constraint :=
  let c : Constraint := ⟨constraint_id, ctype, lhs, rhs, description⟩
  let constraints := dictSet st.constraints constraint_id c
  let index := c.all_tickers.foldl (fun ix t => indexAdd ix t constraint_id)
    st.ticker_index
  (⟨constraints, index⟩, c)

/-- Embedding of `ConstraintEngine.get_constraints_for_ticker`. -/
def get_constraints_for_ticker (st : ConstraintEngine) (t : String) :
    List Constraint :=
  (match dictGet st.ticker_index t with
   | none => []
   | some ids => ids).filterMap (fun cid => dictGet st.constraints cid)

end KalshiArb

theorem dictGet_dictSet_self {V : Type} (l : List (String × V)) (k : String)
    (v : V) : dictGet (dictSet l k v) k = some v := by
  induction l with
  | nil => simp [dictGet, dictSet]
  | cons hd rest ih =>
      obtain ⟨k0, v0⟩ := hd
      by_cases h : k0 = k
      · simp [dictGet, dictSet, h]
      · simp [dictGet, dictSet, h, ih]

theorem dictGet_dictSet_ne {V : Type} (l : List (String × V)) (k k' : String)
    (v : V) (h : k ≠ k') : dictGet (dictSet l k v) k' = dictGet l k' := by
  induction l with
  | nil => simp [dictGet, dictSet, h]
  | cons hd rest ih =>
      obtain ⟨k0, v0⟩ := hd
      by_cases h0 : k0 = k
      · subst h0
        simp [dictGet, dictSet, h]
      · simp [dictGet, dictSet, h0, ih]

theorem indexAdd_adds (idx : List (String × List String)) (t cid : String) :
    ∃ s, dictGet (indexAdd idx t cid) t = some s ∧ cid ∈ s := by
  unfold indexAdd
  cases hg : dictGet idx t with
  | none =>
      exact ⟨[cid], dictGet_dictSet_self idx t [cid], List.mem_singleton.mpr rfl⟩
  | some s =>
      refine ⟨if cid ∈ s then s else s ++ [cid], dictGet_dictSet_self idx t _, ?_⟩
      by_cases hc : cid ∈ s
      · simp [hc]
      · simp [hc]

theorem indexAdd_preserves (idx : List (String × List String)) (u cid0 t cid : String)
    (h : ∃ s, dictGet idx t = some s ∧ cid ∈ s) :
    ∃ s, dictGet (indexAdd idx u cid0) t = some s ∧ cid ∈ s := by
  obtain ⟨s, hs, hmem⟩ := h
  by_cases hu : u = t
  · subst hu
    unfold indexAdd
    rw [hs]
    refine ⟨if cid0 ∈ s then s else s ++ [cid0], dictGet_dictSet_self idx u _, ?_⟩
    by_cases hc : cid0 ∈ s
    · simpa [hc] using hmem
    · simp [hc, hmem]
  · unfold indexAdd
    cases hg : dictGet idx u with
    | none => exact ⟨s, by rw [dictGet_dictSet_ne idx u t _ hu]; exact hs, hmem⟩
    | some s0 => exact ⟨s, by rw [dictGet_dictSet_ne idx u t _ hu]; exact hs, hmem⟩

theorem foldl_indexAdd_preserves (ts : List String) (cid0 : String)
    (idx : List (String × List String)) (t cid : String)
    (h : ∃ s, dictGet idx t = some s ∧ cid ∈ s) :
    ∃ s, dictGet (ts.foldl (fun ix u => indexAdd ix u cid0) idx) t = some s
      ∧ cid ∈ s := by
  induction ts generalizing idx with
  | nil => exact h
  | cons u us ih =>
      exact ih (indexAdd idx u cid0) (indexAdd_preserves idx u cid0 t cid h)

theorem foldl_indexAdd_mem (ts : List String) (cid : String)
    (idx : List (String × List String)) (t : String) (ht : t ∈ ts) :
    ∃ s, dictGet (ts.foldl (fun ix u => indexAdd ix u cid) idx) t = some s
      ∧ cid ∈ s := by
  induction ts generalizing idx with
  | nil => cases ht
  | cons u us ih =>
      rcases List.mem_cons.mp ht with rfl | hmem
      · exact foldl_indexAdd_preserves us cid (indexAdd idx t cid) t cid
          (indexAdd_adds idx t cid)
      · exact ih (indexAdd idx u cid) hmem

/-- Claim C10: re-registering a constraint id with a different ticker set does
not scrub the replaced constraint's tickers from the ticker index: for a
ticker t of the old constraint that is not a ticker of the new one,
get_constraints_for_ticker t afterwards still returns the newly registered
constraint. -/
theorem C10_reregistration_leaves_stale_ticker_index
    (st : ConstraintEngine) (ct1 ct2 : ConstraintType)
    (lhs1 rhs1 lhs2 rhs2 : List String) (d1 d2 cid t : String)
    (ht1 : t ∈ Constraint.all_tickers ⟨cid, ct1, lhs1, rhs1, d1⟩)
    (_ht2 : t ∉ Constraint.all_tickers ⟨cid, ct2, lhs2, rhs2, d2⟩) :
    (⟨cid, ct2, lhs2, rhs2, d2⟩ : Constraint) ∈
      get_constraints_for_ticker
        (register_constraint
          (register_constraint st ct1 lhs1 rhs1 d1 cid).1 ct2 lhs2 rhs2 d2 cid).1 t := by
  obtain ⟨s1, hs1, hm1⟩ := foldl_indexAdd_mem
    (Constraint.all_tickers ⟨cid, ct1, lhs1, rhs1, d1⟩) cid st.ticker_index t ht1
  obtain ⟨s2, hs2, hm2⟩ := foldl_indexAdd_preserves
    (Constraint.all_tickers ⟨cid, ct2, lhs2, rhs2, d2⟩) cid _ t cid ⟨s1, hs1, hm1⟩
  unfold get_constraints_for_ticker
  have hconstr : dictGet
      (register_constraint
        (register_constraint st ct1 lhs1 rhs1 d1 cid).1 ct2 lhs2 rhs2 d2 cid).1.constraints
      cid = some ⟨cid, ct2, lhs2, rhs2, d2⟩ := by
    show dictGet (dictSet _ cid _) cid = _
    exact dictGet_dictSet_self _ cid _
  have hidx : dictGet
      (register_constraint
        (register_constraint st ct1 lhs1 rhs1 d1 cid).1 ct2 lhs2 rhs2 d2 cid).1.ticker_index
      t = some s2 := hs2
  rw [hidx]
  exact List.mem_filterMap.mpr ⟨cid, hm2, hconstr⟩

/-- Witness for claim C10 at a concrete pair of registrations. -/
theorem C10_reregistration_witness :
    (⟨"X", .subset, ["U"], ["V"], ""⟩ : Constraint) ∈
      get_constraints_for_ticker
        (register_constraint
          (register_constraint {} .subset ["T1"] ["T2"] "" "X").1
          .subset ["U"] ["V"] "" "X").1 "T1" :=
  C10_reregistration_leaves_stale_ticker_index {} .subset .subset
    ["T1"] ["T2"] ["U"] ["V"] "" "" "X" "T1"
    (by simp +decide [Constraint.all_tickers, List.dedup_cons_of_not_mem, List.dedup_nil])
    (by simp +decide [Constraint.all_tickers, List.dedup_cons_of_not_mem, List.dedup_nil])

namespace KalshiArb

namespace Backtest

/-! ## backtest/event_simulator.py

The simulator's mutable object state becomes `SimState`; Python dict fields
become insertion-ordered association lists; `datetime` timestamps become
integers (epoch seconds); the wall-clock read in `_settle_positions` becomes
an explicit `now` parameter. -/

/-- Embedding of the simulator's `Side` enum. -/
inductive Side where
  | yes
  | no
deriving DecidableEq, Repr

/-- Embedding of the simulator's `Position` dataclass. -/
structure Position where
  ticker : String
  side : Side
  quantity : ℤ
  entry_price : ℚ
  entry_time : ℤ
  current_value : ℚ := 0
deriving DecidableEq, Repr

/-- Embedding of the `Trade` dataclass. -/
structure Trade where
  timestamp : ℤ
  ticker : String
  action : String
  side : Side
  quantity : ℤ
  price : ℚ
  cost : ℚ
  fees : ℚ
  pnl : ℚ := 0
deriving DecidableEq, Repr

/-- Embedding of the `MarketState` dataclass. -/
structure MarketState where
  timestamp : ℤ
  ticker : String
  bid : ℚ
  ask : ℚ
  last_price : ℚ
  volume : ℤ := 0
  open_interest : ℤ := 0
deriving DecidableEq, Repr

/-- Embedding of `MarketState.mid_price`. -/
def MarketState.mid_price (s : MarketState) : ℚ := (s.bid + s.ask) / 2

/-- Embedding of the strategy `Signal` dataclass. -/
structure Signal where
  action : String
  side : Option Side := none
  quantity : ℤ := 0
  reason : String := ""
deriving DecidableEq, Repr

/-- Constructor arguments of `EventDrivenBacktester`. -/
structure Config where
  initial_capital : ℚ := 10000
  fee_rate : ℚ := 7/100
  slippage_bps : ℚ := 5

/-- The `slippage_bps / 10000` conversion done in `__init__`. -/
def Config.slippage (cfg : Config) : ℚ := cfg.slippage_bps / 10000

/-- Mutable state of the backtester. -/
structure SimState where
  capital : ℚ
  positions : List (String × Position)
  trades : List Trade
  equity_curve : List (ℤ × ℚ)
  peak_equity : ℚ
  max_drawdown : ℚ
deriving DecidableEq, Repr

/-- The state constructed by `__init__`. -/
def initState (cfg : Config) : SimState :=
  ⟨cfg.initial_capital, [], [], [], cfg.initial_capital, 0⟩

/-- Embedding of `EventDrivenBacktester.calculate_fee` (note: unlike
utils/fees.py this version applies a one-cent floor). -/
def calculate_fee (cfg : Config) (price : ℚ) (quantity : ℤ) : ℚ :=
  if price ≤ 0 ∨ price ≥ 1 then 0
  else
    let fee_per_contract := cfg.fee_rate * price * (1 - price)
    max (1/100) ((⌈fee_per_contract * 100⌉ : ℚ) / 100) * (quantity : ℚ)

/-- Embedding of `EventDrivenBacktester._execute_buy`. -/
def execute_buy (cfg : Config) (st : SimState) (state : MarketState)
    (signal : Signal) : SimState :=
  if signal.quantity ≤ 0 then st
  else
    match signal.side with
    | none => st
    | some side =>
      let price0 := if side = .yes then state.ask * (1 + cfg.slippage)
                    else (1 - state.bid) * (1 + cfg.slippage)
      let price := min (99/100) (max (1/100) price0)
      let fees := calculate_fee cfg price signal.quantity
      let cost0 := price * (signal.quantity : ℚ) + fees
      let finish := fun (quantity : ℤ) (cost : ℚ) =>
        let positions :=
          match dictGet st.positions state.ticker with
          | some pos =>
            let total_qty := pos.quantity + quantity
            dictSet st.positions state.ticker
              { pos with
                entry_price := (pos.entry_price * (pos.quantity : ℚ)
                  + price * (quantity : ℚ)) / (total_qty : ℚ)
                quantity := total_qty }
          | none =>
            dictSet st.positions state.ticker
              ⟨state.ticker, side, quantity, price, state.timestamp, 0⟩
        { st with
          capital := st.capital - cost
          positions := positions
          trades := st.trades
            ++ [⟨state.timestamp, state.ticker, "BUY", side, quantity, price,
                 cost, fees, 0⟩] }
      if cost0 > st.capital then
        let max_qty := pyInt ((st.capital - fees) / price)
        if max_qty ≤ 0 then st
        else finish max_qty (price * (max_qty : ℚ) + fees)
      else finish signal.quantity cost0

/-- Ordered-association-list deletion: Python `del dict[key]`. -/
def dictRemove {V : Type} : List (String × V) → String → List (String × V)
  | [], _ => []
  | (k, v) :: rest, key => if k = key then rest else (k, v) :: dictRemove rest key

/-- Embedding of `EventDrivenBacktester._execute_sell` (the Python idiom
`signal.quantity or pos.quantity` reads the position's full quantity when the
signal's quantity is the falsy 0). -/
def execute_sell (cfg : Config) (st : SimState) (state : MarketState)
    (signal : Signal) : SimState :=
  match dictGet st.positions state.ticker with
  | none => st
  | some pos =>
    let qty_to_sell :=
      min (if signal.quantity = 0 then pos.quantity else signal.quantity)
        pos.quantity
    let price0 := if pos.side = .yes then state.bid * (1 - cfg.slippage)
                  else (1 - state.ask) * (1 - cfg.slippage)
    let price := min (99/100) (max (1/100) price0)
    let fees := calculate_fee cfg price qty_to_sell
    let proceeds := price * (qty_to_sell : ℚ) - fees
    let pnl := if pos.side = .yes
               then (price - pos.entry_price) * (qty_to_sell : ℚ) - fees
               else (pos.entry_price - price) * (qty_to_sell : ℚ) - fees
    let positions :=
      if qty_to_sell ≥ pos.quantity then dictRemove st.positions state.ticker
      else dictSet st.positions state.ticker
        { pos with quantity := pos.quantity - qty_to_sell }
    { st with
      capital := st.capital + proceeds
      positions := positions
      trades := st.trades
        ++ [⟨state.timestamp, state.ticker, "SELL", pos.side, qty_to_sell,
             price, -proceeds, fees, pnl⟩] }

/-- Embedding of `EventDrivenBacktester._mark_to_market`. -/
def mark_to_market (st : SimState) (state : MarketState) : SimState :=
  match dictGet st.positions state.ticker with
  | none => st
  | some pos =>
    let cv := if pos.side = .yes then (pos.quantity : ℚ) * state.mid_price
              else (pos.quantity : ℚ) * (1 - state.mid_price)
    { st with
      positions := dictSet st.positions state.ticker
        { pos with current_value := cv } }

/-- Embedding of `EventDrivenBacktester._record_equity`. -/
def record_equity (st : SimState) (timestamp : ℤ) : SimState :=
  let position_value := (st.positions.map (fun p => p.2.current_value)).sum
  let total_equity := st.capital + position_value
  let peak := if total_equity > st.peak_equity then total_equity
              else st.peak_equity
  let maxdd := if peak > 0 then max st.max_drawdown ((peak - total_equity) / peak)
               else st.max_drawdown
  { st with
    equity_curve := st.equity_curve ++ [(timestamp, total_equity)]
    peak_equity := peak
    max_drawdown := maxdd }

/-- One iteration of the event loop in `run`: call the strategy on the
current market state and context, apply the order, mark to market and record
equity. -/
def step (cfg : Config)
    (signal_func : MarketState → List (String × Position) × ℚ → Signal)
    (st : SimState) (state : MarketState) : SimState :=
  let signal := signal_func state (st.positions, st.capital)
  let st1 := if signal.action = "buy" ∧ signal.side.isSome
             then execute_buy cfg st state signal
             else if signal.action = "sell" then execute_sell cfg st state signal
             else st
  record_equity (mark_to_market st1 state) state.timestamp

/-- Settlement of a single open position in `_settle_positions`; `now` is the
`datetime.now()` read stamped on the SETTLE trade. -/
def settle_position (resolutions : String → Option Bool) (now : ℤ)
    (st : SimState) (entry : String × Position) : SimState :=
  let pos := entry.2
  let resolved_yes := (resolutions entry.1).getD false
  let payout_pnl : ℚ × ℚ :=
    if pos.side = .yes then
      if resolved_yes then
        ((pos.quantity : ℚ) * 1,
         (pos.quantity : ℚ) * 1 - pos.entry_price * (pos.quantity : ℚ))
      else (0, -(pos.entry_price * (pos.quantity : ℚ)))
    else
      if resolved_yes then (0, -(pos.entry_price * (pos.quantity : ℚ)))
      else ((pos.quantity : ℚ) * 1,
        (pos.quantity : ℚ) * 1 - pos.entry_price * (pos.quantity : ℚ))
  { st with
    capital := st.capital + payout_pnl.1
    trades := st.trades
      ++ [⟨now, entry.1, "SETTLE", pos.side, pos.quantity,
           if resolved_yes then 1 else 0, 0, 0, payout_pnl.2⟩] }

/-- Embedding of `EventDrivenBacktester._settle_positions`. -/
def settle_positions (resolutions : String → Option Bool) (now : ℤ)
    (st : SimState) : SimState :=
  let st1 := st.positions.foldl (settle_position resolutions now) st
  { st1 with positions := [] }

/-- Embedding of `EventDrivenBacktester.run`: fold the event loop over the
chronological market data, then settle at the wall-clock time `now`. -/
def run (cfg : Config) (market_data : List MarketState)
    (signal_func : MarketState → List (String × Position) × ℚ → Signal)
    (resolutions : String → Option Bool) (now : ℤ) : SimState :=
  settle_positions resolutions now
    (market_data.foldl (step cfg signal_func) (initState cfg))

/-- The rational-valued fields of `BacktestMetrics`.  The three fields
computed with non-rational operations (`annualized_return`,
`sharpe_ratio`, `sortino_ratio`: real powers and square roots) are omitted;
in `_calculate_metrics` they are functions of the equity curve, the capital
and the initial capital only, so equality of those inputs (which the
determinism theorem states separately) determines them. -/
structure BacktestMetrics where
  total_return : ℚ
  max_drawdown : ℚ
  total_trades : ℕ
  winning_trades : ℕ
  losing_trades : ℕ
  win_rate : ℚ
  profit_factor : ℚ
  avg_win : ℚ
  avg_loss : ℚ
  avg_trade_pnl : ℚ
  edge_per_contract : ℚ
  kelly_optimal : ℚ
  final_equity : ℚ
  peak_equity : ℚ
deriving DecidableEq, Repr

/-- np.mean of a list of rationals. -/
def listMean (l : List ℚ) : ℚ := l.sum / (l.length : ℚ)

/-- Embedding of the rational part of
`EventDrivenBacktester._calculate_metrics`. -/
def calculate_metrics (cfg : Config) (st : SimState) : BacktestMetrics :=
  if st.equity_curve = [] then ⟨0, 0, 0, 0, 0, 0, 0, 0, 0, 0, 0, 0, st.capital, 0⟩
  else
    let total_return := (st.capital - cfg.initial_capital) / cfg.initial_capital
    let pnls := (st.trades.filter (fun t => t.pnl ≠ 0)).map Trade.pnl
    let wins := pnls.filter (fun p => 0 < p)
    let losses := pnls.filter (fun p => p < 0)
    let win_rate := if pnls.length ≠ 0
                    then (wins.length : ℚ) / (pnls.length : ℚ) else 0
    let avg_win := if wins ≠ [] then listMean wins else 0
    let avg_loss := if losses ≠ [] then |listMean losses| else 0
    let profit_factor := if losses ≠ [] then wins.sum / |losses.sum| else 0
    let total_contracts := (st.trades.map Trade.quantity).sum
    let edge_per_contract := if 0 < total_contracts
                             then pnls.sum / (total_contracts : ℚ) else 0
    let kelly := if 0 < win_rate ∧ win_rate < 1 ∧ 0 < avg_win ∧ 0 < avg_loss
                 then win_rate - (1 - win_rate) / (avg_win / avg_loss) else 0
    let avg_trade_pnl := if pnls ≠ [] then listMean pnls else 0
    ⟨total_return, st.max_drawdown, st.trades.length, wins.length,
     losses.length, win_rate, profit_factor, avg_win, avg_loss, avg_trade_pnl,
     edge_per_contract, kelly, st.capital, st.peak_equity⟩

/-- Erase the wall-clock timestamp of SETTLE trades (the only trade field that
depends on the wall clock). -/
def scrubSettleTime (tr : Trade) : Trade :=
  if tr.action = "SETTLE" then { tr with timestamp := 0 } else tr

end Backtest

end KalshiArb

open KalshiArb.Backtest in
theorem scrubSettleTime_pnl (tr : Trade) : (scrubSettleTime tr).pnl = tr.pnl := by
  unfold scrubSettleTime
  split <;> rfl

open KalshiArb.Backtest in
theorem scrubSettleTime_quantity (tr : Trade) :
    (scrubSettleTime tr).quantity = tr.quantity := by
  unfold scrubSettleTime
  split <;> rfl

open KalshiArb.Backtest in
theorem settle_fold_eq (res : String → Option Bool) (t1 t2 : ℤ) :
    ∀ (ps : List (String × Backtest.Position)) (s1 s2 : SimState),
      s1.capital = s2.capital → s1.positions = s2.positions →
      s1.equity_curve = s2.equity_curve → s1.peak_equity = s2.peak_equity →
      s1.max_drawdown = s2.max_drawdown →
      s1.trades.map scrubSettleTime = s2.trades.map scrubSettleTime →
      (ps.foldl (settle_position res t1) s1).capital
        = (ps.foldl (settle_position res t2) s2).capital
      ∧ (ps.foldl (settle_position res t1) s1).positions
        = (ps.foldl (settle_position res t2) s2).positions
      ∧ (ps.foldl (settle_position res t1) s1).equity_curve
        = (ps.foldl (settle_position res t2) s2).equity_curve
      ∧ (ps.foldl (settle_position res t1) s1).peak_equity
        = (ps.foldl (settle_position res t2) s2).peak_equity
      ∧ (ps.foldl (settle_position res t1) s1).max_drawdown
        = (ps.foldl (settle_position res t2) s2).max_drawdown
      ∧ (ps.foldl (settle_position res t1) s1).trades.map scrubSettleTime
        = (ps.foldl (settle_position res t2) s2).trades.map scrubSettleTime := by
  intro ps
  induction ps with
  | nil =>
      intro s1 s2 hc hp he hpk hm ht
      exact ⟨hc, hp, he, hpk, hm, ht⟩
  | cons e ps ih =>
      intro s1 s2 hc hp he hpk hm ht
      simp only [List.foldl_cons]
      apply ih
      · simp only [settle_position]
        rw [hc]
      · simp only [settle_position]
        exact hp
      · simp only [settle_position]
        exact he
      · simp only [settle_position]
        exact hpk
      · simp only [settle_position]
        exact hm
      · simp only [settle_position, List.map_append]
        rw [ht]
        simp [scrubSettleTime]

open KalshiArb.Backtest in
theorem metrics_trade_data_eq {l1 l2 : List Trade}
    (ht : l1.map scrubSettleTime = l2.map scrubSettleTime) :
    l1.length = l2.length
    ∧ (l1.filter (fun t => t.pnl ≠ 0)).map Trade.pnl
        = (l2.filter (fun t => t.pnl ≠ 0)).map Trade.pnl
    ∧ (l1.map Trade.quantity).sum = (l2.map Trade.quantity).sum := by
  have hpnl : ∀ l : List Trade,
      (l.map scrubSettleTime).map Trade.pnl = l.map Trade.pnl := by
    intro l
    rw [List.map_map]
    apply List.map_congr_left
    intro tr _
    exact scrubSettleTime_pnl tr
  have hqty : ∀ l : List Trade,
      (l.map scrubSettleTime).map Trade.quantity = l.map Trade.quantity := by
    intro l
    rw [List.map_map]
    apply List.map_congr_left
    intro tr _
    exact scrubSettleTime_quantity tr
  have hfil : ∀ l : List Trade,
      ((l.map scrubSettleTime).filter (fun t => t.pnl ≠ 0)).map Trade.pnl
        = (l.filter (fun t => t.pnl ≠ 0)).map Trade.pnl := by
    intro l
    rw [List.filter_map]
    have hco : (fun t : Trade => decide (t.pnl ≠ 0)) ∘ scrubSettleTime
        = fun t : Trade => decide (t.pnl ≠ 0) := by
      funext tr
      simp [Function.comp, scrubSettleTime_pnl]
    rw [hco, List.map_map]
    apply List.map_congr_left
    intro tr _
    exact scrubSettleTime_pnl tr
  refine ⟨?_, ?_, ?_⟩
  · rw [← List.length_map l1 scrubSettleTime, ht, List.length_map]
  · rw [← hfil l1, ht, hfil l2]
  · rw [← hqty l1, ht, hqty l2]

open KalshiArb.Backtest in
theorem metrics_congr (cfg : Config) (s1 s2 : SimState)
    (hc : s1.capital = s2.capital) (he : s1.equity_curve = s2.equity_curve)
    (hpk : s1.peak_equity = s2.peak_equity)
    (hm : s1.max_drawdown = s2.max_drawdown)
    (ht : s1.trades.map scrubSettleTime = s2.trades.map scrubSettleTime) :
    calculate_metrics cfg s1 = calculate_metrics cfg s2 := by
  obtain ⟨hlen, hfil, hqty⟩ := metrics_trade_data_eq ht
  unfold calculate_metrics
  rw [hc, he, hpk, hm, hlen, hfil, hqty]

/-- Claim C5 amended: two runs of the backtester with the same market data,
signal function, resolutions and configuration produce identical metrics,
equity curves and final capital, and identical trade records except for the
timestamps of the SETTLE trades, which are read from the wall clock at
settlement time (`datetime.now()` in `_settle_positions`). -/
theorem C5_amended_run_deterministic_up_to_settle_timestamps
    (cfg : Backtest.Config) (market_data : List Backtest.MarketState)
    (signal_func : Backtest.MarketState
      → List (String × Backtest.Position) × ℚ → Backtest.Signal)
    (resolutions : String → Option Bool) (t1 t2 : ℤ) :
    Backtest.calculate_metrics cfg
        (Backtest.run cfg market_data signal_func resolutions t1)
      = Backtest.calculate_metrics cfg
        (Backtest.run cfg market_data signal_func resolutions t2)
    ∧ (Backtest.run cfg market_data signal_func resolutions t1).equity_curve
      = (Backtest.run cfg market_data signal_func resolutions t2).equity_curve
    ∧ (Backtest.run cfg market_data signal_func resolutions t1).capital
      = (Backtest.run cfg market_data signal_func resolutions t2).capital
    ∧ (Backtest.run cfg market_data signal_func resolutions t1).trades.map
        Backtest.scrubSettleTime
      = (Backtest.run cfg market_data signal_func resolutions t2).trades.map
        Backtest.scrubSettleTime := by
  obtain ⟨hc, hp, he, hpk, hm, ht⟩ := settle_fold_eq resolutions t1 t2
    (market_data.foldl (Backtest.step cfg signal_func) (Backtest.initState cfg)).positions
    (market_data.foldl (Backtest.step cfg signal_func) (Backtest.initState cfg))
    (market_data.foldl (Backtest.step cfg signal_func) (Backtest.initState cfg))
    rfl rfl rfl rfl rfl rfl
  have hruns : ∀ t : ℤ, Backtest.run cfg market_data signal_func resolutions t
      = { (market_data.foldl (Backtest.step cfg signal_func)
            (Backtest.initState cfg)).positions.foldl
              (Backtest.settle_position resolutions t)
              (market_data.foldl (Backtest.step cfg signal_func)
                (Backtest.initState cfg)) with positions := [] } := by
    intro t
    rfl
  rw [hruns t1, hruns t2]
  exact ⟨metrics_congr cfg _ _ hc he hpk hm ht, he, hc, ht⟩

theorem sim_run_example_timestamps :
    ∀ t : ℤ,
      ((Backtest.run ⟨100, 7/100, 0⟩ [⟨0, "A", 49/100, 1/2, 1/2, 0, 0⟩]
          (fun _ _ => ⟨"buy", some .yes, 1, ""⟩) (fun _ => none) t).trades.map
            Backtest.Trade.timestamp) = [0, t] := by
  intro t
  norm_num [Backtest.run, Backtest.settle_positions, Backtest.settle_position,
    Backtest.step, Backtest.execute_buy, Backtest.mark_to_market,
    Backtest.record_equity, Backtest.initState, Backtest.calculate_fee,
    Backtest.Config.slippage, Backtest.MarketState.mid_price, dictGet, dictSet,
    pyInt, fee_ceil_74]

/-- Claim C5 counterexample: the same backtest run settled at wall-clock
times 0 and 1 produces different trade records (the SETTLE trade carries the
wall-clock timestamp), so two runs do not produce identical trade records. -/
theorem C5_counterexample_settle_timestamp_from_wall_clock :
    (Backtest.run ⟨100, 7/100, 0⟩ [⟨0, "A", 49/100, 1/2, 1/2, 0, 0⟩]
        (fun _ _ => ⟨"buy", some .yes, 1, ""⟩) (fun _ => none) 0).trades
      ≠ (Backtest.run ⟨100, 7/100, 0⟩ [⟨0, "A", 49/100, 1/2, 1/2, 0, 0⟩]
        (fun _ _ => ⟨"buy", some .yes, 1, ""⟩) (fun _ => none) 1).trades := by
  intro h
  have h0 := sim_run_example_timestamps 0
  have h1 := sim_run_example_timestamps 1
  rw [h, h1] at h0
  exact absurd h0 (by decide)
